import Mathlib

/-!
Verification of the void_editor conversational-agent core against its
specification.  Strings of the TypeScript source are modelled as `List Char`
(JS strings are immutable sequences of UTF-16 units); JS `String.substring`
(which swaps and clamps its arguments) and `String.indexOf` are modelled
explicitly.  The stateful `ChatThreadService` is modelled as a pure state
machine on a `SvcState` record, with external effects (storage writes, event
emissions, transport aborts, tool invocations) recorded as traces in the
state.
-/

namespace VoidEditor

/-! ## JS string primitives -/

/-- Model of JS `String.prototype.substring` index conversion: negative
indices clamp to 0, indices beyond the length clamp to the length. -/
def jsClamp (len : Nat) (x : Int) : Nat :=
  if x ≤ 0 then 0 else min x.toNat len

/-- Model of JS `str.substring(a, b)`: both arguments are clamped to
`[0, length]` and swapped when `a > b`; the result is the characters from
the smaller to the larger clamped index. -/
def jsSubstring (s : List Char) (a b : Int) : List Char :=
  let a' := jsClamp s.length a
  let b' := jsClamp s.length b
  (s.take (max a' b')).drop (min a' b')

/-- `matchesAt s pat p` holds when `pat` occurs in `s` starting at index `p`. -/
def matchesAt (s pat : List Char) (p : Nat) : Bool :=
  List.isPrefixOf pat (s.drop p)

/-- Search loop of JS `indexOf`: try positions `p, p+1, ...` (`fuel` many). -/
def idxGo (s pat : List Char) : Nat → Nat → Option Nat
  | 0, _ => none
  | fuel + 1, p => if matchesAt s pat p then some p else idxGo s pat fuel (p + 1)

/-- Model of JS `str.indexOf(pat, i)` (for `0 ≤ i`): the least position
`q ≥ i` at which `pat` occurs in `s`, if any (`none` models `-1`). -/
def indexOfFrom (s pat : List Char) (i : Nat) : Option Nat :=
  idxGo s pat (s.length + 1 - i) i

theorem idxGo_eq_some (s pat : List Char) :
    ∀ f p q, idxGo s pat f p = some q →
      p ≤ q ∧ q < p + f ∧ matchesAt s pat q = true ∧
        ∀ r, p ≤ r → r < q → matchesAt s pat r = false := by
  intro f
  induction f with
  | zero => intro p q h; simp [idxGo] at h
  | succ f ih =>
    intro p q h
    rw [idxGo] at h
    by_cases hm : matchesAt s pat p
    · simp [hm] at h
      subst h
      exact ⟨Nat.le_refl _, by omega, hm, fun r h1 h2 => by omega⟩
    · simp [hm] at h
      obtain ⟨h1, h2, h3, h4⟩ := ih (p + 1) q h
      refine ⟨by omega, by omega, h3, fun r hr1 hr2 => ?_⟩
      rcases Nat.eq_or_lt_of_le hr1 with he | hl
      · subst he; simpa using hm
      · exact h4 r hl hr2

theorem idxGo_eq_some_of (s pat : List Char) :
    ∀ f p q, p ≤ q → q < p + f → matchesAt s pat q = true →
      (∀ r, p ≤ r → r < q → matchesAt s pat r = false) →
      idxGo s pat f p = some q := by
  intro f
  induction f with
  | zero => intro p q h1 h2; omega
  | succ f ih =>
    intro p q h1 h2 h3 h4
    rw [idxGo]
    rcases Nat.eq_or_lt_of_le h1 with he | hl
    · subst he; simp [h3]
    · have hp : matchesAt s pat p = false := h4 p (Nat.le_refl _) hl
      simp [hp]
      exact ih (p + 1) q hl (by omega) h3 (fun r hr1 hr2 => h4 r (by omega) hr2)

theorem matchesAt_nil (s : List Char) (p : Nat) : matchesAt s [] p = true := by
  simp [matchesAt, List.isPrefixOf]

theorem matchesAt_bound {s pat : List Char} {p : Nat} (hpat : pat ≠ [])
    (h : matchesAt s pat p = true) : p + pat.length ≤ s.length := by
  rw [matchesAt, List.isPrefixOf_iff_prefix] at h
  have hlen := h.length_le
  rw [List.length_drop] at hlen
  by_cases hp : p ≤ s.length
  · omega
  · exfalso
    have : s.drop p = [] := List.drop_eq_nil_of_le (by omega)
    rw [this] at h
    exact hpat (List.prefix_nil.mp h)

theorem drop_append_le (s x : List Char) (p : Nat) (h : p ≤ s.length) :
    (s ++ x).drop p = s.drop p ++ x :=
  List.drop_append_of_le_length h

theorem take_append_le (s x : List Char) (p : Nat) (h : p ≤ s.length) :
    (s ++ x).take p = s.take p :=
  List.take_append_of_le_length h

theorem matchesAt_append {s pat : List Char} {p : Nat} (x : List Char)
    (h : matchesAt s pat p = true) : matchesAt (s ++ x) pat p = true := by
  by_cases hpat : pat = []
  · subst hpat; exact matchesAt_nil _ _
  · have hb := matchesAt_bound hpat h
    rw [matchesAt, List.isPrefixOf_iff_prefix] at h ⊢
    rw [drop_append_le s x p (by omega)]
    exact h.trans (List.prefix_append _ _)

theorem matchesAt_restrict {s x pat : List Char} {q : Nat}
    (h : matchesAt (s ++ x) pat q = true) (hle : q + pat.length ≤ s.length) :
    matchesAt s pat q = true := by
  by_cases hpat : pat = []
  · subst hpat; exact matchesAt_nil _ _
  · rw [matchesAt, List.isPrefixOf_iff_prefix] at h ⊢
    rw [drop_append_le s x q (by omega)] at h
    rw [List.prefix_iff_eq_take] at h ⊢
    rw [take_append_le (s.drop q) x pat.length (by rw [List.length_drop]; omega)] at h
    exact h

theorem indexOfFrom_eq_some {s pat : List Char} {i q : Nat} (hpat : pat ≠ []) :
    indexOfFrom s pat i = some q ↔
      i ≤ q ∧ matchesAt s pat q = true ∧
        ∀ r, i ≤ r → r < q → matchesAt s pat r = false := by
  constructor
  · intro h
    obtain ⟨h1, _, h3, h4⟩ := idxGo_eq_some s pat _ i q h
    exact ⟨h1, h3, h4⟩
  · rintro ⟨h1, h2, h3⟩
    have hq : q + pat.length ≤ s.length := matchesAt_bound hpat h2
    exact idxGo_eq_some_of s pat _ i q h1 (by omega) h2 h3

theorem indexOfFrom_append_some {s x pat : List Char} {i q : Nat}
    (hpat : pat ≠ []) (h : indexOfFrom s pat i = some q) :
    indexOfFrom (s ++ x) pat i = some q := by
  rw [indexOfFrom_eq_some hpat] at h ⊢
  obtain ⟨h1, h2, h3⟩ := h
  have hq : q + pat.length ≤ s.length := matchesAt_bound hpat h2
  refine ⟨h1, matchesAt_append x h2, fun r hr1 hr2 => ?_⟩
  by_contra hc
  have hc' : matchesAt (s ++ x) pat r = true := by
    cases hcc : matchesAt (s ++ x) pat r
    · exact absurd hcc hc
    · rfl
  have : matchesAt s pat r = true := matchesAt_restrict hc' (by omega)
  rw [h3 r hr1 hr2] at this
  exact Bool.false_ne_true this

theorem indexOfFrom_some_ge {s pat : List Char} {i q : Nat}
    (h : indexOfFrom s pat i = some q) : i ≤ q :=
  (idxGo_eq_some s pat _ i q h).1

theorem indexOfFrom_some_matches {s pat : List Char} {i q : Nat}
    (h : indexOfFrom s pat i = some q) : matchesAt s pat q = true :=
  (idxGo_eq_some s pat _ i q h).2.2.1

/-- Stability of `jsSubstring` under appending, inside the old bounds. -/
theorem jsSubstring_append (s x : List Char) (a b : Nat) (hab : a ≤ b)
    (hb : b ≤ s.length) : jsSubstring (s ++ x) (↑a) (↑b) = jsSubstring s (↑a) (↑b) := by
  have ha' : jsClamp (s ++ x).length (↑a) = a := by
    simp only [jsClamp, List.length_append, Int.toNat_ofNat]
    split
    · omega
    · omega
  have hb' : jsClamp (s ++ x).length (↑b) = b := by
    simp only [jsClamp, List.length_append, Int.toNat_ofNat]
    split
    · omega
    · omega
  have ha2 : jsClamp s.length (↑a) = a := by
    simp only [jsClamp, Int.toNat_ofNat]
    split
    · omega
    · omega
  have hb2 : jsClamp s.length (↑b) = b := by
    simp only [jsClamp, Int.toNat_ofNat]
    split
    · omega
    · omega
  simp only [jsSubstring, ha', hb', ha2, hb2]
  rw [take_append_le s x (max a b) (by omega)]

/-! ## extractSearchReplaceBlocks (src/unnamed/part_001, lines 183-253)

The sentinel marker constants `ORIGINAL`, `DIVIDER`, `FINAL` are imported by
the source from `prompt/prompts.js`, a file not present in the repository
snapshot; the embedding therefore takes the three markers as parameters.
The function itself appends/prepends the literal newlines exactly as the
source does (`ORIGINAL + '\n'`, `'\n' + DIVIDER + '\n'`, `'\n' + FINAL`),
so the three search patterns are nonempty for every choice of markers. -/

inductive SRBlockState
  | writingOriginal
  | writingFinal
  | done
deriving DecidableEq

/-- The ordering writingOriginal < writingFinal < done of block states. -/
def stateRank : SRBlockState → Nat
  | .writingOriginal => 0
  | .writingFinal => 1
  | .done => 2

structure ExtractedSearchReplaceBlock where
  state : SRBlockState
  orig : List Char
  final : List Char
deriving DecidableEq

/-- Loop of `endsWithAnyPrefixOf`: try the length-`k` prefix of `anyPrefix`,
then shorter ones; the length-0 prefix always matches, so the result is the
longest prefix of `anyPrefix` that is a suffix of `str`. -/
def ewapGo (str anyPrefix : List Char) : Nat → Option (List Char)
  | 0 =>
    if List.isSuffixOf (anyPrefix.take 0) str then some (anyPrefix.take 0) else none
  | k + 1 =>
    if List.isSuffixOf (anyPrefix.take (k + 1)) str then some (anyPrefix.take (k + 1))
    else ewapGo str anyPrefix k

/-- Model of `endsWithAnyPrefixOf(str, anyPrefix)` from the source. -/
def endsWithAnyPrefixOf (str anyPrefix : List Char) : Option (List Char) :=
  ewapGo str anyPrefix anyPrefix.length

/-- Length trimmed off the tail for a partially-typed marker:
`isWriting?.length ?? 0` in the source. -/
def partialMarkerLen (str marker : List Char) : Nat :=
  ((endsWithAnyPrefixOf str marker).map List.length).getD 0

/-- The scanning loop of `extractSearchReplaceBlocks`, with the three derived
patterns `O_ = ORIGINAL + '\n'`, `D_ = '\n' + DIVIDER + '\n'`,
`F_ = '\n' + FINAL` as parameters and an explicit fuel (the `while (true)`
loop advances its cursor by at least one position per iteration, so
`str.length + 1` fuel always suffices). -/
def scanSR (Opat Dpat Fpat str : List Char) : Nat → Nat → List ExtractedSearchReplaceBlock
  | 0, _ => []
  | fuel + 1, i =>
    match indexOfFrom str Opat i with
    | none => []
    | some os0 =>
      match indexOfFrom str Dpat (os0 + Opat.length) with
      | none =>
        [{ state := .writingOriginal,
           orig := jsSubstring str (↑(os0 + Opat.length))
             (↑(str.length - partialMarkerLen str Dpat)),
           final := [] }]
      | some ds0 =>
        match indexOfFrom str Fpat (ds0 + Dpat.length) with
        | none =>
          [{ state := .writingFinal,
             orig := jsSubstring str (↑(os0 + Opat.length)) (↑ds0),
             final := jsSubstring str (↑(ds0 + Dpat.length))
               (↑(str.length - partialMarkerLen str Fpat)) }]
        | some fs0 =>
          { state := .done,
            orig := jsSubstring str (↑(os0 + Opat.length)) (↑ds0),
            final := jsSubstring str (↑(ds0 + Dpat.length)) (↑fs0) }
            :: scanSR Opat Dpat Fpat str fuel (fs0 + Fpat.length)

/-- Model of `extractSearchReplaceBlocks(str)`, parameterised by the three
sentinel marker strings. -/
def extractSearchReplaceBlocks (ORIGINAL DIVIDER FINAL str : List Char) :
    List ExtractedSearchReplaceBlock :=
  scanSR (ORIGINAL ++ ['\n']) ('\n' :: (DIVIDER ++ ['\n'])) ('\n' :: FINAL)
    str (str.length + 1) 0

/-- With exhausted starting position the search finds nothing. -/
theorem indexOfFrom_none_of_big {s pat : List Char} {i : Nat}
    (h : s.length + 1 ≤ i) : indexOfFrom s pat i = none := by
  have : s.length + 1 - i = 0 := by omega
  rw [indexOfFrom, this, idxGo]

/-- The scanner's value does not depend on the fuel once the fuel covers the
remaining positions. -/
theorem scanSR_fuel (Opat Dpat Fpat str : List Char)
    (hO : Opat ≠ []) (hD : Dpat ≠ []) (hF : Fpat ≠ []) :
    ∀ f1 f2 i, str.length + 1 ≤ i + f1 → str.length + 1 ≤ i + f2 →
      scanSR Opat Dpat Fpat str f1 i = scanSR Opat Dpat Fpat str f2 i := by
  intro f1
  induction f1 with
  | zero =>
    intro f2 i h1 h2
    have hi : str.length + 1 ≤ i := by omega
    cases f2 with
    | zero => rfl
    | succ f2 => rw [scanSR, scanSR, indexOfFrom_none_of_big hi]
  | succ f1 ih =>
    intro f2 i h1 h2
    cases f2 with
    | zero =>
      have hi : str.length + 1 ≤ i := by omega
      rw [scanSR, scanSR, indexOfFrom_none_of_big hi]
    | succ f2 =>
      cases hO1 : indexOfFrom str Opat i with
      | none => simp only [scanSR, hO1]
      | some os0 =>
        cases hD1 : indexOfFrom str Dpat (os0 + Opat.length) with
        | none => simp only [scanSR, hO1, hD1]
        | some ds0 =>
          cases hF1 : indexOfFrom str Fpat (ds0 + Dpat.length) with
          | none => simp only [scanSR, hO1, hD1, hF1]
          | some fs0 =>
            have hos := indexOfFrom_some_ge hO1
            have hds := indexOfFrom_some_ge hD1
            have hfs := indexOfFrom_some_ge hF1
            have hfb := matchesAt_bound hF (indexOfFrom_some_matches hF1)
            have hOl : 1 ≤ Opat.length := List.length_pos.mpr hO
            simp only [scanSR, hO1, hD1, hF1, List.cons.injEq, true_and]
            exact ih f2 (fs0 + Fpat.length) (by omega) (by omega)

/-- Pointwise relation between a block of an earlier scan and the block at
the same index of a later scan: the state may only advance, and a finished
block is unchanged. -/
def blockLE (u v : ExtractedSearchReplaceBlock) : Prop :=
  stateRank u.state ≤ stateRank v.state ∧ (u.state = .done → u = v)

/-- The monotone-refinement relation between two scan results. -/
def BlocksLE (b1 b2 : List ExtractedSearchReplaceBlock) : Prop :=
  b1.length ≤ b2.length ∧
    ∀ k u v, b1.get? k = some u → b2.get? k = some v → blockLE u v

theorem blockLE_refl (u : ExtractedSearchReplaceBlock) : blockLE u u :=
  ⟨Nat.le_refl _, fun _ => rfl⟩

theorem BlocksLE_nil (b : List ExtractedSearchReplaceBlock) : BlocksLE [] b :=
  ⟨Nat.zero_le _, fun k u v hu _ => by simp at hu⟩

theorem BlocksLE_single {u v : ExtractedSearchReplaceBlock}
    (rest : List ExtractedSearchReplaceBlock) (h : blockLE u v) :
    BlocksLE [u] (v :: rest) := by
  refine ⟨by simp, fun k a b ha hb => ?_⟩
  cases k with
  | zero =>
    simp only [List.get?] at ha hb
    cases ha; cases hb; exact h
  | succ k => simp [List.get?] at ha

theorem BlocksLE_cons {t1 t2 : List ExtractedSearchReplaceBlock}
    (a : ExtractedSearchReplaceBlock) (h : BlocksLE t1 t2) :
    BlocksLE (a :: t1) (a :: t2) := by
  refine ⟨by simpa using h.1, fun k x y hx hy => ?_⟩
  cases k with
  | zero =>
    simp only [List.get?] at hx hy
    cases hx; cases hy; exact blockLE_refl _
  | succ k =>
    simp only [List.get?] at hx hy
    exact h.2 k x y hx hy

/-- Core monotonicity: scanning `s ++ x` refines scanning `s` (same fuel). -/
theorem scanSR_mono (Opat Dpat Fpat s x : List Char)
    (hO : Opat ≠ []) (hD : Dpat ≠ []) (hF : Fpat ≠ []) :
    ∀ fuel i, BlocksLE (scanSR Opat Dpat Fpat s fuel i)
      (scanSR Opat Dpat Fpat (s ++ x) fuel i) := by
  intro fuel
  induction fuel with
  | zero => intro i; exact BlocksLE_nil _
  | succ fuel ih =>
    intro i
    cases hO1 : indexOfFrom s Opat i with
    | none => simp only [scanSR, hO1]; exact BlocksLE_nil _
    | some os0 =>
      have hO2 : indexOfFrom (s ++ x) Opat i = some os0 :=
        indexOfFrom_append_some hO hO1
      cases hD1 : indexOfFrom s Dpat (os0 + Opat.length) with
      | none =>
        cases hD2 : indexOfFrom (s ++ x) Dpat (os0 + Opat.length) with
        | none =>
          simp only [scanSR, hO1, hO2, hD1, hD2]
          exact BlocksLE_single _ ⟨Nat.le_refl _, fun hc => by simp at hc⟩
        | some ds0 =>
          cases hF2 : indexOfFrom (s ++ x) Fpat (ds0 + Dpat.length) with
          | none =>
            simp only [scanSR, hO1, hO2, hD1, hD2, hF2]
            exact BlocksLE_single _ ⟨by simp [stateRank], fun hc => by simp at hc⟩
          | some fs0 =>
            simp only [scanSR, hO1, hO2, hD1, hD2, hF2]
            exact BlocksLE_single _ ⟨by simp [stateRank], fun hc => by simp at hc⟩
      | some ds0 =>
        have hD2 : indexOfFrom (s ++ x) Dpat (os0 + Opat.length) = some ds0 :=
          indexOfFrom_append_some hD hD1
        have hds := indexOfFrom_some_ge hD1
        have hdb := matchesAt_bound hD (indexOfFrom_some_matches hD1)
        have horig : jsSubstring (s ++ x) (↑(os0 + Opat.length)) (↑ds0) =
            jsSubstring s (↑(os0 + Opat.length)) (↑ds0) :=
          jsSubstring_append s x _ _ hds (by omega)
        cases hF1 : indexOfFrom s Fpat (ds0 + Dpat.length) with
        | none =>
          cases hF2 : indexOfFrom (s ++ x) Fpat (ds0 + Dpat.length) with
          | none =>
            simp only [scanSR, hO1, hO2, hD1, hD2, hF1, hF2]
            exact BlocksLE_single _ ⟨Nat.le_refl _, fun hc => by simp at hc⟩
          | some fs0 =>
            simp only [scanSR, hO1, hO2, hD1, hD2, hF1, hF2]
            exact BlocksLE_single _ ⟨by simp [stateRank], fun hc => by simp at hc⟩
        | some fs0 =>
          have hF2 : indexOfFrom (s ++ x) Fpat (ds0 + Dpat.length) = some fs0 :=
            indexOfFrom_append_some hF hF1
          have hfs := indexOfFrom_some_ge hF1
          have hfb := matchesAt_bound hF (indexOfFrom_some_matches hF1)
          have hfin : jsSubstring (s ++ x) (↑(ds0 + Dpat.length)) (↑fs0) =
              jsSubstring s (↑(ds0 + Dpat.length)) (↑fs0) :=
            jsSubstring_append s x _ _ hfs (by omega)
          simp only [scanSR, hO1, hO2, hD1, hD2, hF1, hF2, horig, hfin]
          exact BlocksLE_cons _ (ih (fs0 + Fpat.length))

/-- C1: for all strings S1 and S2 = S1 + X with X non-empty (and for every
choice of the three sentinel marker strings, which the source imports from
`prompt/prompts.js`), `extractSearchReplaceBlocks(S2)` has at least as many
blocks as `extractSearchReplaceBlocks(S1)`; at every index present in both
results the block state only advances in the ordering
writingOriginal < writingFinal < done; and every block that is `done` in the
earlier result has identical `orig` and `final` fields in the later one. -/
theorem C1_extractSearchReplaceBlocks_monotone
    (ORIGINAL DIVIDER FINAL s1 x : List Char) (hx : x ≠ []) :
    (extractSearchReplaceBlocks ORIGINAL DIVIDER FINAL s1).length ≤
      (extractSearchReplaceBlocks ORIGINAL DIVIDER FINAL (s1 ++ x)).length ∧
    ∀ k u v,
      (extractSearchReplaceBlocks ORIGINAL DIVIDER FINAL s1).get? k = some u →
      (extractSearchReplaceBlocks ORIGINAL DIVIDER FINAL (s1 ++ x)).get? k = some v →
      stateRank u.state ≤ stateRank v.state ∧
        (u.state = .done → u.orig = v.orig ∧ u.final = v.final) := by
  have hO : ORIGINAL ++ ['\n'] ≠ [] := by simp
  have hD : ('\n' :: (DIVIDER ++ ['\n'])) ≠ [] := by simp
  have hF : ('\n' :: FINAL) ≠ [] := by simp
  have hfuel : scanSR (ORIGINAL ++ ['\n']) ('\n' :: (DIVIDER ++ ['\n']))
      ('\n' :: FINAL) s1 (s1.length + 1) 0 =
      scanSR (ORIGINAL ++ ['\n']) ('\n' :: (DIVIDER ++ ['\n']))
      ('\n' :: FINAL) s1 ((s1 ++ x).length + 1) 0 := by
    apply scanSR_fuel _ _ _ _ hO hD hF
    · omega
    · rw [List.length_append]; omega
  have hmono := scanSR_mono (ORIGINAL ++ ['\n']) ('\n' :: (DIVIDER ++ ['\n']))
    ('\n' :: FINAL) s1 x hO hD hF ((s1 ++ x).length + 1) 0
  rw [extractSearchReplaceBlocks, extractSearchReplaceBlocks, hfuel]
  refine ⟨hmono.1, fun k u v hu hv => ?_⟩
  obtain ⟨h1, h2⟩ := hmono.2 k u v hu hv
  exact ⟨h1, fun hd => by rw [h2 hd]; exact ⟨rfl, rfl⟩⟩

/-- Witness for C1 at a concrete non-empty appended suffix. -/
theorem C1_witness :
    (['a'] : List Char) ≠ [] ∧
    ((extractSearchReplaceBlocks ['O'] ['D'] ['F'] []).length ≤
      (extractSearchReplaceBlocks ['O'] ['D'] ['F'] ([] ++ ['a'])).length ∧
    ∀ k u v,
      (extractSearchReplaceBlocks ['O'] ['D'] ['F'] []).get? k = some u →
      (extractSearchReplaceBlocks ['O'] ['D'] ['F'] ([] ++ ['a'])).get? k = some v →
      stateRank u.state ≤ stateRank v.state ∧
        (u.state = .done → u.orig = v.orig ∧ u.final = v.final)) :=
  ⟨by decide, C1_extractSearchReplaceBlocks_monotone ['O'] ['D'] ['F'] [] ['a'] (by decide)⟩

/-! ## SurroundingsRemover (src/unnamed/part_001, lines 8-116) and the two
composite extractors (lines 120-178).

The TS class mutates `i`/`j` in place; the model threads the record
explicitly, each operation returning its TS return value paired with the
updated record.  `i` and `j` are JS numbers, modelled as `Int` (`j` starts
at `length - 1`, which is `-1` on the empty string). -/

structure SurroundingsRemover where
  originalS : List Char
  i : Int
  j : Int
deriving DecidableEq

/-- The constructor `new SurroundingsRemover(s)`. -/
def SRnew (s : List Char) : SurroundingsRemover :=
  { originalS := s, i := 0, j := (s.length : Int) - 1 }

/-- JS `charAt` as an `Option` (out-of-range `charAt` yields the empty
string, which never equals a one-character string in the comparisons the
source makes). -/
def charAtOpt (s : List Char) (i : Int) : Option Char :=
  if i < 0 then none else s.get? i.toNat

/-- Model of JS `str.indexOf(pat, i)` for an `Int` position: the position is
clamped to `[0, length]`; `-1` models "not found". -/
def jsIndexOf (s pat : List Char) (i : Int) : Int :=
  match indexOfFrom s pat (jsClamp s.length i) with
  | some p => (p : Int)
  | none => -1

/-- `value()`: `originalS.substring(i, j + 1)`. -/
def value (sr : SurroundingsRemover) : List Char :=
  jsSubstring sr.originalS sr.i (sr.j + 1)

/-- The `while` loop of `removePrefix`: advances `i` and `offset` while the
guard `i <= j && offset <= prefix.length - 1` holds and the characters
match; at most `prefix.length` iterations occur, which bounds the fuel. -/
def rpGo (s pfx : List Char) (j : Int) : Nat → Int → Nat → (Int × Nat)
  | 0, i, offset => (i, offset)
  | fuel + 1, i, offset =>
    if i ≤ j ∧ offset + 1 ≤ pfx.length then
      match pfx.get? offset with
      | some c =>
        if charAtOpt s i = some c then rpGo s pfx j fuel (i + 1) (offset + 1)
        else (i, offset)
      | none => (i, offset)
    else (i, offset)

/-- `removePrefix(prefix)`: returns whether the whole prefix was removed. -/
def removePrefix (sr : SurroundingsRemover) (pfx : List Char) :
    Bool × SurroundingsRemover :=
  let r := rpGo sr.originalS pfx sr.j pfx.length sr.i 0
  (r.2 == pfx.length, { sr with i := r.1 })

/-- The descending loop of `removeSuffix`: the greatest `len ≥ 1` (starting
from `min (s.length) (suffix.length)`) such that the length-`len` prefix of
`suffix` is a suffix of `s`, if any. -/
def rsGo (s sfx : List Char) : Nat → Option Nat
  | 0 => none
  | len + 1 =>
    if List.isSuffixOf (sfx.take (len + 1)) s then some (len + 1) else rsGo s sfx len

/-- `removeSuffix(suffix)`: retracts `j` by the matched length; returns
whether the full suffix matched. -/
def removeSuffix (sr : SurroundingsRemover) (sfx : List Char) :
    Bool × SurroundingsRemover :=
  let s := value sr
  match rsGo s sfx (min s.length sfx.length) with
  | some len => (len == sfx.length, { sr with j := sr.j - (len : Int) })
  | none => (false, sr)

/-- `removeFromStartUntil(until, alsoRemoveUntilStr)`: `none` models the TS
`null` return. -/
def removeFromStartUntil (sr : SurroundingsRemover) (untilStr : List Char)
    (alsoRemoveUntilStr : Bool) : Option Bool × SurroundingsRemover :=
  let index := jsIndexOf sr.originalS untilStr sr.i
  if index = -1 then (none, { sr with i := sr.j + 1 })
  else if alsoRemoveUntilStr then
    (some true, { sr with i := index + (untilStr.length : Int) })
  else (some true, { sr with i := index })

/-- `removeCodeBlock()`. -/
def removeCodeBlock (sr : SurroundingsRemover) : Bool × SurroundingsRemover :=
  let r1 := removePrefix sr ['`', '`', '`']
  if !r1.1 then (false, r1.2)
  else
    let r2 := removeFromStartUntil r1.2 ['\n'] true
    let j := r2.2.j
    let r3 := removeSuffix r2.2 ['`', '`', '`']
    let r4 := if r3.2.j = j then removeSuffix r3.2 ['`', '`', '`', '\n'] else r3
    if !r4.1 then (false, r4.2)
    else
      let r5 := removeSuffix r4.2 ['\n']
      (true, r5.2)

/-- `deltaInfo(recentlyAddedTextLen)`: the visible delta (live characters
inside the recently-added window) and the withheld suffix (characters past
the live window inside that window); `Infinity` as second substring argument
clamps to the length. -/
def deltaInfo (sr : SurroundingsRemover) (recentlyAddedTextLen : Nat) :
    List Char × List Char :=
  let recentlyAddedIdx : Int := (sr.originalS.length : Int) - (recentlyAddedTextLen : Int)
  let actualDelta := jsSubstring sr.originalS (max sr.i recentlyAddedIdx) (sr.j + 1)
  let ignoredSuffix := jsSubstring sr.originalS (max (sr.j + 1) recentlyAddedIdx)
    (sr.originalS.length : Int)
  (actualDelta, ignoredSuffix)

/-- `extractCodeFromRegular({text, recentlyAddedTextLen})`. -/
def extractCodeFromRegular (text : List Char) (recentlyAddedTextLen : Nat) :
    List Char × List Char × List Char :=
  let pm := (removeCodeBlock (SRnew text)).2
  let s := value pm
  let d := deltaInfo pm recentlyAddedTextLen
  (s, d.1, d.2)

/-- `extractCodeFromFIM({text, recentlyAddedTextLen, midTag})`. -/
def extractCodeFromFIM (text : List Char) (recentlyAddedTextLen : Nat)
    (midTag : List Char) : List Char × List Char × List Char :=
  let pm := (removeCodeBlock (SRnew text)).2
  let r1 := removePrefix pm ('<' :: midTag ++ ['>'])
  let pm2 := if r1.1 then (removeSuffix r1.2 ('<' :: '/' :: midTag ++ ['>'])).2 else r1.2
  let s := value pm2
  let d := deltaInfo pm2 recentlyAddedTextLen
  (s, d.1, d.2)

theorem rpGo_ge (s pfx : List Char) (j : Int) :
    ∀ fuel (i : Int) (off : Nat), i ≤ (rpGo s pfx j fuel i off).1 := by
  intro fuel
  induction fuel with
  | zero => intro i off; simp [rpGo]
  | succ fuel ih =>
    intro i off
    rw [rpGo]
    split
    · cases hg : pfx.get? off with
      | none => simp
      | some c =>
        simp only
        split
        · have := ih (i + 1) (off + 1)
          omega
        · simp
    · simp

theorem rpGo_le (s pfx : List Char) (j : Int) :
    ∀ fuel (i : Int) (off : Nat), i ≤ j + 1 → (rpGo s pfx j fuel i off).1 ≤ j + 1 := by
  intro fuel
  induction fuel with
  | zero => intro i off h; simpa [rpGo] using h
  | succ fuel ih =>
    intro i off h
    rw [rpGo]
    split
    · rename_i hg
      cases hg2 : pfx.get? off with
      | none => simpa using h
      | some c =>
        simp only
        split
        · exact ih (i + 1) (off + 1) (by omega)
        · simpa using h
    · simpa using h

theorem removePrefix_invariants (sr : SurroundingsRemover) (pfx : List Char) :
    (removePrefix sr pfx).2.originalS = sr.originalS ∧
    sr.i ≤ (removePrefix sr pfx).2.i ∧
    (removePrefix sr pfx).2.j = sr.j ∧
    (sr.i ≤ sr.j + 1 → (removePrefix sr pfx).2.i ≤ sr.j + 1) := by
  refine ⟨rfl, rpGo_ge _ _ _ _ _ _, rfl, fun h => rpGo_le _ _ _ _ _ _ h⟩

theorem removeSuffix_invariants (sr : SurroundingsRemover) (sfx : List Char) :
    (removeSuffix sr sfx).2.originalS = sr.originalS ∧
    (removeSuffix sr sfx).2.i = sr.i ∧
    (removeSuffix sr sfx).2.j ≤ sr.j := by
  rw [removeSuffix]
  cases rsGo (value sr) sfx (min (value sr).length sfx.length) with
  | none => exact ⟨rfl, rfl, Int.le_refl _⟩
  | some len => exact ⟨rfl, rfl, by simp⟩

theorem jsClamp_ge (len : Nat) (i : Int) (h : i ≤ (len : Int)) :
    i ≤ ((jsClamp len i : Nat) : Int) := by
  rw [jsClamp]
  split
  · rename_i h0; omega
  · rename_i h0
    have h1 : (0 : Int) ≤ i := by omega
    have h2 := Int.toNat_of_nonneg h1
    have h3 : i.toNat ≤ len := by omega
    rw [Nat.min_eq_left h3]
    omega

theorem jsIndexOf_cases (s u : List Char) (i : Int) (hi : i ≤ (s.length : Int)) :
    jsIndexOf s u i = -1 ∨ i ≤ jsIndexOf s u i := by
  rw [jsIndexOf]
  cases h : indexOfFrom s u (jsClamp s.length i) with
  | none => exact Or.inl rfl
  | some p =>
    right
    have hp := indexOfFrom_some_ge h
    have hc := jsClamp_ge s.length i hi
    simp only
    omega

theorem removeFromStartUntil_invariants (sr : SurroundingsRemover)
    (u : List Char) (b : Bool) :
    (removeFromStartUntil sr u b).2.originalS = sr.originalS ∧
    (removeFromStartUntil sr u b).2.j = sr.j ∧
    (sr.i ≤ sr.j + 1 → sr.j + 1 ≤ (sr.originalS.length : Int) →
      sr.i ≤ (removeFromStartUntil sr u b).2.i) := by
  rw [removeFromStartUntil]
  split
  · exact ⟨rfl, rfl, fun h1 _ => by simpa using h1⟩
  · rename_i hne
    have := jsIndexOf_cases sr.originalS u sr.i
    split
    · refine ⟨rfl, rfl, fun h1 h2 => ?_⟩
      rcases this (by omega) with hc | hc
      · exact absurd hc hne
      · simp only; omega
    · refine ⟨rfl, rfl, fun h1 h2 => ?_⟩
      rcases this (by omega) with hc | hc
      · exact absurd hc hne
      · exact hc

theorem removeCodeBlock_invariants (sr : SurroundingsRemover) :
    (removeCodeBlock sr).2.originalS = sr.originalS ∧
    (removeCodeBlock sr).2.j ≤ sr.j ∧
    (sr.i ≤ sr.j + 1 → sr.j + 1 ≤ (sr.originalS.length : Int) →
      sr.i ≤ (removeCodeBlock sr).2.i) := by
  obtain ⟨o1, i1, j1, p1⟩ := removePrefix_invariants sr ['`', '`', '`']
  simp only [removeCodeBlock]
  split
  · dsimp only
    exact ⟨o1, by omega, fun _ _ => i1⟩
  · obtain ⟨o2, j2, i2⟩ :=
      removeFromStartUntil_invariants (removePrefix sr ['`', '`', '`']).2 ['\n'] true
    obtain ⟨o3, i3, j3⟩ := removeSuffix_invariants
      (removeFromStartUntil (removePrefix sr ['`', '`', '`']).2 ['\n'] true).2 ['`', '`', '`']
    have hi2 : sr.i ≤ sr.j + 1 → sr.j + 1 ≤ (sr.originalS.length : Int) →
        sr.i ≤ (removeFromStartUntil (removePrefix sr ['`', '`', '`']).2 ['\n'] true).2.i := by
      intro h1 h2
      have := i2 (by omega) (by rw [o1]; omega)
      omega
    split
    · rename_i hjj
      obtain ⟨o4, i4, j4⟩ := removeSuffix_invariants
        (removeSuffix (removeFromStartUntil (removePrefix sr ['`', '`', '`']).2
          ['\n'] true).2 ['`', '`', '`']).2 ['`', '`', '`', '\n']
      split
      · dsimp only
        refine ⟨by rw [o4, o3, o2, o1], by omega, fun h1 h2 => ?_⟩
        rw [i4, i3]; exact hi2 h1 h2
      · obtain ⟨o5, i5, j5⟩ := removeSuffix_invariants
          (removeSuffix (removeSuffix (removeFromStartUntil
            (removePrefix sr ['`', '`', '`']).2 ['\n'] true).2 ['`', '`', '`']).2
            ['`', '`', '`', '\n']).2 ['\n']
        dsimp only
        refine ⟨by rw [o5, o4, o3, o2, o1], by omega, fun h1 h2 => ?_⟩
        rw [i5, i4, i3]; exact hi2 h1 h2
    · split
      · dsimp only
        refine ⟨by rw [o3, o2, o1], by omega, fun h1 h2 => ?_⟩
        rw [i3]; exact hi2 h1 h2
      · obtain ⟨o5, i5, j5⟩ := removeSuffix_invariants
          (removeSuffix (removeFromStartUntil (removePrefix sr ['`', '`', '`']).2
            ['\n'] true).2 ['`', '`', '`']).2 ['\n']
        dsimp only
        refine ⟨by rw [o5, o3, o2, o1], by omega, fun h1 h2 => ?_⟩
        rw [i5, i3]; exact hi2 h1 h2

theorem jsSubstring_isInfix (s : List Char) (a b : Int) :
    jsSubstring s a b <:+: s := by
  rw [jsSubstring]
  exact ((List.drop_suffix _ _).isInfix).trans ((List.take_prefix _ _).isInfix)

theorem value_isInfix (sr : SurroundingsRemover) : value sr <:+: sr.originalS :=
  jsSubstring_isInfix _ _ _

/-- C7: `extractCodeFromRegular` on "```js\nhello\n```" with
`recentlyAddedTextLen = 5` returns live value "hello"; the visible delta is
"o" (the part of the live value inside the final 5 characters) and the
withheld suffix is "\n```" (the part beyond the live window inside the final
5 characters): delta is a suffix of the live value and delta + suffix is
exactly the final 5 characters of the input. -/
theorem C7_extractCodeFromRegular_concrete :
    extractCodeFromRegular ("```js\nhello\n```".toList) 5 =
      ("hello".toList, "o".toList, "\n```".toList) ∧
    "o".toList <:+ "hello".toList ∧
    "o".toList ++ "\n```".toList =
      ("```js\nhello\n```".toList).drop (("```js\nhello\n```".toList).length - 5) := by
  refine ⟨by decide, by decide, by decide⟩

/-- C9 counterexample: the claim "the left cursor i never decreases" fails
for the operation sequence removeSuffix "c"; removeFromStartUntil "c" true;
removeFromStartUntil "z" true on input "abc": after the second operation
`i = 3`, and the third operation (marker absent, so `i := j + 1` with
`j = 1`) sets `i = 2 < 3`. -/
theorem C9_counterexample :
    ((removeFromStartUntil ((removeFromStartUntil
        ((removeSuffix (SRnew ['a', 'b', 'c']) ['c']).2) ['c'] true).2) ['z'] true).2.i <
      ((removeFromStartUntil ((removeSuffix (SRnew ['a', 'b', 'c']) ['c']).2)
        ['c'] true).2).i) ∧
    ((removeFromStartUntil ((removeSuffix (SRnew ['a', 'b', 'c']) ['c']).2)
      ['c'] true).2).i = 3 ∧
    ((removeFromStartUntil ((removeFromStartUntil
        ((removeSuffix (SRnew ['a', 'b', 'c']) ['c']).2) ['c'] true).2) ['z'] true).2.i = 2) := by
  refine ⟨by decide, by decide, by decide⟩

/-- C9 (amended): for every `SurroundingsRemover` state and every operation,
the source string is never changed and the right cursor `j` never increases;
the left cursor `i` never decreases under `removePrefix` and `removeSuffix`
unconditionally, and under `removeFromStartUntil` and `removeCodeBlock`
whenever the state satisfies `i ≤ j + 1 ≤ length` (which holds in every
state the extractors reach; the counterexample above shows `i` can decrease
once `i > j + 1`); `value()` is always a contiguous substring of the
original string, and the live values returned by `extractCodeFromRegular`
and `extractCodeFromFIM` are contiguous substrings of their input text
(`deltaInfo` reads the state without changing it). -/
theorem C9_amended_surroundingsRemover_invariants :
    (∀ sr pfx, (removePrefix sr pfx).2.originalS = sr.originalS ∧
      sr.i ≤ (removePrefix sr pfx).2.i ∧ (removePrefix sr pfx).2.j = sr.j) ∧
    (∀ sr sfx, (removeSuffix sr sfx).2.originalS = sr.originalS ∧
      (removeSuffix sr sfx).2.i = sr.i ∧ (removeSuffix sr sfx).2.j ≤ sr.j) ∧
    (∀ sr u b, (removeFromStartUntil sr u b).2.originalS = sr.originalS ∧
      (removeFromStartUntil sr u b).2.j = sr.j ∧
      (sr.i ≤ sr.j + 1 → sr.j + 1 ≤ (sr.originalS.length : Int) →
        sr.i ≤ (removeFromStartUntil sr u b).2.i)) ∧
    (∀ sr, (removeCodeBlock sr).2.originalS = sr.originalS ∧
      (removeCodeBlock sr).2.j ≤ sr.j ∧
      (sr.i ≤ sr.j + 1 → sr.j + 1 ≤ (sr.originalS.length : Int) →
        sr.i ≤ (removeCodeBlock sr).2.i)) ∧
    (∀ sr, value sr <:+: sr.originalS) ∧
    (∀ t n, (extractCodeFromRegular t n).1 <:+: t) ∧
    (∀ t n m, (extractCodeFromFIM t n m).1 <:+: t) := by
  refine ⟨?_, ?_, ?_, removeCodeBlock_invariants, value_isInfix, ?_, ?_⟩
  · intro sr pfx
    obtain ⟨h1, h2, h3, _⟩ := removePrefix_invariants sr pfx
    exact ⟨h1, h2, h3⟩
  · exact removeSuffix_invariants
  · exact removeFromStartUntil_invariants
  · intro t n
    have h := value_isInfix (removeCodeBlock (SRnew t)).2
    rw [(removeCodeBlock_invariants (SRnew t)).1] at h
    exact h
  · intro t n m
    rw [extractCodeFromFIM]
    split
    · rename_i hmid
      have h := value_isInfix (removeSuffix (removePrefix
          (removeCodeBlock (SRnew t)).2 ('<' :: m ++ ['>'])).2 ('<' :: '/' :: m ++ ['>'])).2
      rw [(removeSuffix_invariants _ _).1, (removePrefix_invariants _ _).1,
        (removeCodeBlock_invariants (SRnew t)).1] at h
      exact h
    · have h := value_isInfix (removePrefix (removeCodeBlock (SRnew t)).2
        ('<' :: m ++ ['>'])).2
      rw [(removePrefix_invariants _ _).1, (removeCodeBlock_invariants (SRnew t)).1] at h
      exact h

/-- Witness for C9's amended theorem: the conditional clauses hold at a
concrete well-formed state. -/
theorem C9_amended_witness :
    ((SRnew ['a', 'b']).i ≤ (SRnew ['a', 'b']).j + 1 ∧
      (SRnew ['a', 'b']).j + 1 ≤ ((SRnew ['a', 'b']).originalS.length : Int)) ∧
    ((SRnew ['a', 'b']).i ≤ (removeFromStartUntil (SRnew ['a', 'b']) ['b'] true).2.i ∧
      (SRnew ['a', 'b']).i ≤ (removeCodeBlock (SRnew ['a', 'b'])).2.i) :=
  ⟨⟨by decide, by decide⟩,
    ⟨(C9_amended_surroundingsRemover_invariants.2.2.1 (SRnew ['a', 'b']) ['b'] true).2.2
      (by decide) (by decide),
     (C9_amended_surroundingsRemover_invariants.2.2.2.1 (SRnew ['a', 'b'])).2.2
      (by decide) (by decide)⟩⟩

/-! ## ChatThreadService
(src/src/vs/workbench/contrib/void/browser/chatThreadService.ts)

The service is modelled as a pure state machine.  External effects are
recorded as traces inside the state: `storedThreads` is the last value
written to the storage key (`_storeAllThreads`), `threadChangeEvents` counts
firings of `onDidChangeCurrentThread`, `streamEvents` records the payloads
of `onDidChangeStreamState` in order, `aborts` records the tokens passed to
`llmMessageService.abort`, and `invoked` records the `(name, params)` of
each `toolFns` invocation.  Timestamps (`new Date()`) are modelled as a
`Nat` parameter `now` (ISO-8601 strings of a monotone clock compare like
the numbers they encode); a thread id (`getTime().toString()`) is modelled
as `toString now`.  Tool results, errors and URIs are opaque payloads,
modelled as `String`. -/

structure IRange where
  startLineNumber : Nat
  startColumn : Nat
  endLineNumber : Nat
  endColumn : Nat
deriving DecidableEq

inductive StagingSelectionItem
  | codeSelection (fileURI : String) (selectionStr : String) (range : IRange)
  | fileSelection (fileURI : String)
deriving DecidableEq

structure UserMessageState where
  stagingSelections : List StagingSelectionItem
  isBeingEdited : Bool
deriving DecidableEq

/-- `defaultMessageState` from the source. -/
def defaultMessageState : UserMessageState :=
  { stagingSelections := [], isBeingEdited := false }

structure ThreadStateRec where
  stagingSelections : List StagingSelectionItem
  focusedMessageIdx : Option Nat
  isCheckedOfSelectionId : List (String × Bool)
deriving DecidableEq

/-- `defaultThreadState` from the source. -/
def defaultThreadState : ThreadStateRec :=
  { stagingSelections := [], focusedMessageIdx := none, isCheckedOfSelectionId := [] }

/-- The `ChatMessage` tagged union.  `state` sub-records are `Option`s so
that pre-migration (v1) data, in which they may be absent, is expressible. -/
inductive ChatMessage
  | system (content : String)
  | user (content : Option String) (displayContent : Option String)
      (selections : Option (List StagingSelectionItem)) (state : Option UserMessageState)
  | assistant (content : Option String) (displayContent : Option String)
  | tool (name : String) (params : String) (id : String) (content : String)
      (result : String)
deriving DecidableEq

structure Thread where
  id : String
  createdAt : Nat
  lastModified : Nat
  messages : List ChatMessage
  state : Option ThreadStateRec
deriving DecidableEq

/-- The `ChatThreads` map, as a JS object: an association list in key
order; `{...threads, [k]: v}` replaces the first entry with key `k` in
place, or appends a fresh key at the end. -/
abbrev ChatThreads := List (String × Thread)

def lookupA (l : ChatThreads) (k : String) : Option Thread :=
  (l.find? (fun p => p.1 == k)).map (fun p => p.2)

def updateA : ChatThreads → String → Thread → ChatThreads
  | [], k, v => [(k, v)]
  | p :: rest, k, v => if p.1 == k then (k, v) :: rest else p :: updateA rest k v

/-- Per-thread transient stream state (all fields optional in JS). -/
structure StreamSt where
  error : Option String := none
  messageSoFar : Option String := none
  streamingToken : Option String := none
deriving DecidableEq

/-- A `Partial<...>` update for `_setStreamState`: `none` means the key is
absent from the patch object (the old value is kept); `some v` means the
key is present with value `v` (where `v = none` models `undefined`). -/
structure StreamPatch where
  error : Option (Option String) := none
  messageSoFar : Option (Option String) := none
  streamingToken : Option (Option String) := none

def applyStreamPatch (old : StreamSt) (p : StreamPatch) : StreamSt :=
  { error := p.error.getD old.error,
    messageSoFar := p.messageSoFar.getD old.messageSoFar,
    streamingToken := p.streamingToken.getD old.streamingToken }

/-- The whole service state, with effect traces. -/
structure SvcState where
  allThreads : ChatThreads
  currentThreadId : String
  streamState : String → Option StreamSt
  storedThreads : ChatThreads
  threadChangeEvents : Nat
  streamEvents : List String
  aborts : List String
  invoked : List (String × String)

/-- `this._onDidChangeCurrentThread.fire()` (the `affectsCurrent := true`
case of `_setState`). -/
def fireThreadChange (st : SvcState) : SvcState :=
  { st with threadChangeEvents := st.threadChangeEvents + 1 }

/-- `_storeAllThreads(threads)`. -/
def _storeAllThreads (threads : ChatThreads) (st : SvcState) : SvcState :=
  { st with storedThreads := threads }

/-- `_setStreamState(threadId, state)`: merge the patch over the existing
entry (spreading an absent entry gives the empty object) and fire
`onDidChangeStreamState` with `{threadId}`. -/
def _setStreamState (tid : String) (p : StreamPatch) (st : SvcState) : SvcState :=
  { st with
    streamState := fun s =>
      if s = tid then some (applyStreamPatch ((st.streamState tid).getD {}) p)
      else st.streamState s,
    streamEvents := st.streamEvents ++ [tid] }

/-- `_addMessageToThread(threadId, message)`: copy-on-write append keyed by
`oldThread.id`, bumping `lastModified`, persisting, then firing the
current-thread-changed event.  (When the thread is missing the JS code
would throw a `TypeError` dereferencing `undefined`; callers always pass an
existing id, and the claims about this operation assume the thread exists.) -/
def _addMessageToThread (tid : String) (message : ChatMessage) (now : Nat)
    (st : SvcState) : SvcState :=
  match lookupA st.allThreads tid with
  | none => st
  | some oldThread =>
    let newThreads := updateA st.allThreads oldThread.id
      { oldThread with
        lastModified := now,
        messages := oldThread.messages ++ [message] }
    fireThreadChange { (_storeAllThreads newThreads st) with allThreads := newThreads }

/-- `_finishStreamingTextMessage(threadId, content, error?)`: append the
assistant message (`displayContent: content || null`), then set the stream
state with all three keys present (`error` carries the optional argument,
which is `undefined` when omitted). -/
def _finishStreamingTextMessage (tid : String) (content : String)
    (error : Option String) (now : Nat) (st : SvcState) : SvcState :=
  _setStreamState tid
    { error := some error, messageSoFar := some none, streamingToken := some none }
    (_addMessageToThread tid
      (.assistant (some content) (if content = "" then none else some content)) now st)

/-- `cancelStreaming(threadId)`. -/
def cancelStreaming (tid : String) (now : Nat) (st : SvcState) : SvcState :=
  let token := (st.streamState tid).bind (fun q => q.streamingToken)
  let st1 := match token with
    | some t => { st with aborts := st.aborts ++ [t] }
    | none => st
  _finishStreamingTextMessage tid
    (((st1.streamState tid).bind (fun q => q.messageSoFar)).getD "") none now st1

/-- `dismissStreamError(threadId)`. -/
def dismissStreamError (tid : String) (st : SvcState) : SvcState :=
  _setStreamState tid { error := some none } st

/-- `switchToThread(threadId)`. -/
def switchToThread (tid : String) (st : SvcState) : SvcState :=
  fireThreadChange { st with currentThreadId := tid }

/-- `newThreadObject()` at clock value `now`. -/
def newThreadObject (now : Nat) : Thread :=
  { id := toString now, createdAt := now, lastModified := now, messages := [],
    state := some
      { stagingSelections := [], focusedMessageIdx := none,
        isCheckedOfSelectionId := [] } }

/-- `openNewThread()`. -/
def openNewThread (now : Nat) (st : SvcState) : SvcState :=
  match st.allThreads.find? (fun p => p.2.messages.length == 0) with
  | some p => switchToThread p.1 st
  | none =>
    let newThread := newThreadObject now
    let newThreads := updateA st.allThreads newThread.id newThread
    fireThreadChange
      { (_storeAllThreads newThreads st) with
        allThreads := newThreads, currentThreadId := newThread.id }

/-- JS falsiness of the stored version tag (`!oldVersion`): the tag is
absent (`undefined`) or the empty string. -/
def jsFalsy (v : Option String) : Bool :=
  match v with
  | none => true
  | some s => s == ""

/-- The v1 → v2 per-message fix-up: a `user` message without a `state`
gets `defaultMessageState`. -/
def migrateMsgV1 : ChatMessage → ChatMessage
  | .user c d sel none => .user c d sel (some defaultMessageState)
  | m => m

/-- The v1 → v2 per-thread fix-up: a missing thread `state` becomes
`defaultThreadState`, and every message is fixed up. -/
def migrateThreadV1 (t : Thread) : Thread :=
  { t with
    state := some (t.state.getD defaultThreadState),
    messages := t.messages.map migrateMsgV1 }

/-- `_updatedThreadsToVersion(oldThreadsObject, oldVersion)`: `none` models
the `null` return ("no update"). -/
def _updatedThreadsToVersion (oldThreadsObject : ChatThreads)
    (oldVersion : Option String) : Option ChatThreads :=
  if jsFalsy oldVersion then none
  else if oldVersion == some "v1" then
    some (oldThreadsObject.map (fun p => (p.1, migrateThreadV1 p.2)))
  else if oldVersion == some "v2" then none
  else none

/-- The constructor's `updatedThreads ?? readThreads` — the thread map the
service actually proceeds with after migration. -/
def loadedThreads (readThreads : ChatThreads) (oldVersion : Option String) :
    ChatThreads :=
  (_updatedThreadsToVersion readThreads oldVersion).getD readThreads

/-- `thread.messages?.[messageIdx]?.role === 'user'`. -/
def isUserAt (messages : List ChatMessage) (messageIdx : Nat) : Bool :=
  match messages.get? messageIdx with
  | some (.user _ _ _ _) => true
  | _ => false

/-- The synchronous head of `editUserMessageAndStreamResponse` up to the
hand-off to `addUserMessageAndStreamResponse`: check the edited message's
role (throwing — modelled as `some errorMessage` in the second component,
with the state returned unchanged — when it is not `user`), then truncate
the current thread's message list to `[0, messageIdx)` via `_setState`
(which fires the current-thread-changed event but does not persist). -/
def editUserMessageAndStreamResponse_truncation (messageIdx : Nat)
    (st : SvcState) : SvcState × Option String :=
  match lookupA st.allThreads st.currentThreadId with
  | none => (st, some "TypeError")
  | some thread =>
    if isUserAt thread.messages messageIdx then
      let slicedThread := { thread with messages := thread.messages.take messageIdx }
      (fireThreadChange
        { st with allThreads := updateA st.allThreads thread.id slicedThread },
       none)
    else (st, some "Error: editing a message with role !== user")

/-! ### The tool loop of `addUserMessageAndStreamResponse.onFinalMessage`

The tools service (`src/.../common/toolsService.ts`) is not part of the
repository snapshot; tool behaviour is therefore an environment parameter:
`toolFns` models `toolsService.toolFns[toolName](params)` (a thrown
exception modelled as `Except.error`) and `toolResultToString` models
`toolsService.toolResultToString[toolName](result)`. -/

structure ToolEnv where
  toolFns : String → String → Except String String
  toolResultToString : String → String → Except String String

structure ToolCall where
  name : String
  params : String
  id : String
deriving DecidableEq

/-- The `for (const tool of toolCalls)` loop, threading
`shouldSendAnotherMessage` (initially `false` at the top of the enclosing
`while` iteration): on either failure the error is recorded in stream state,
the flag is reset to `false` and the loop breaks; on success the tool
message is appended and the flag set to `true`. -/
def runTools (env : ToolEnv) (tid : String) (now : Nat) :
    List ToolCall → Bool → SvcState → SvcState × Bool
  | [], should, st => (st, should)
  | tc :: rest, _, st =>
    let st0 := { st with invoked := st.invoked ++ [(tc.name, tc.params)] }
    match env.toolFns tc.name tc.params with
    | .error e =>
      (_setStreamState tid { error := some (some e) } st0, false)
    | .ok v =>
      match env.toolResultToString tc.name v with
      | .error e =>
        (_setStreamState tid { error := some (some e) } st0, false)
      | .ok s =>
        runTools env tid now rest true
          (_addMessageToThread tid (.tool tc.name tc.params tc.id s v) now st0)

/-- The `onFinalMessage` callback body: with no tool calls, finalize the
streaming text message; otherwise append the assistant message, clear
`messageSoFar`, and run the tool loop.  The returned `Bool` is
`shouldSendAnotherMessage` — whether the agent loop issues another model
request for this turn. -/
def onFinalMessage (env : ToolEnv) (tid : String) (now : Nat)
    (fullText : String) (toolCalls : List ToolCall) (st : SvcState) :
    SvcState × Bool :=
  if toolCalls.length = 0 then
    (_finishStreamingTextMessage tid fullText none now st, false)
  else
    runTools env tid now toolCalls false
      (_setStreamState tid { messageSoFar := some none }
        (_addMessageToThread tid (.assistant (some fullText) (some fullText)) now st))

/-- Whether both stages of one tool call succeed in environment `env`. -/
def toolOk (env : ToolEnv) (tc : ToolCall) : Bool :=
  match env.toolFns tc.name tc.params with
  | .error _ => false
  | .ok v =>
    match env.toolResultToString tc.name v with
    | .error _ => false
    | .ok _ => true

/-- The error a failing tool call records (`none` when it succeeds). -/
def toolErr (env : ToolEnv) (tc : ToolCall) : Option String :=
  match env.toolFns tc.name tc.params with
  | .error e => some e
  | .ok v =>
    match env.toolResultToString tc.name v with
    | .error e => some e
    | .ok _ => none

/-- The `tool` message a successful call appends. -/
def toolMsgOf (env : ToolEnv) (tc : ToolCall) : ChatMessage :=
  match env.toolFns tc.name tc.params with
  | .error _ => .tool tc.name tc.params tc.id "" ""
  | .ok v =>
    match env.toolResultToString tc.name v with
    | .error _ => .tool tc.name tc.params tc.id "" v
    | .ok s => .tool tc.name tc.params tc.id s v

/-! ### Association-list lemmas for the JS-object model -/

theorem lookupA_updateA_self (l : ChatThreads) (k : String) (v : Thread) :
    lookupA (updateA l k v) k = some v := by
  induction l with
  | nil => simp [updateA, lookupA, List.find?]
  | cons p rest ih =>
    rw [updateA]
    split
    · simp [lookupA, List.find?]
    · rename_i hne
      rw [lookupA, List.find?]
      simp only [hne]
      exact ih

theorem lookupA_updateA_ne (l : ChatThreads) (k k' : String) (v : Thread)
    (h : k' ≠ k) : lookupA (updateA l k v) k' = lookupA l k' := by
  induction l with
  | nil =>
    simp only [updateA, lookupA, List.find?]
    have : (k == k') = false := by simp [Ne.symm h]
    simp [this]
  | cons p rest ih =>
    rw [updateA]
    split
    · rename_i hpk
      have hpk' : p.1 = k := by simpa using hpk
      rw [lookupA, lookupA, List.find?, List.find?]
      have h1 : (k == k') = false := by simp [Ne.symm h]
      have h2 : (p.1 == k') = false := by simp [hpk', Ne.symm h]
      simp [h1, h2]
    · rw [lookupA, lookupA, List.find?, List.find?]
      cases hpk : (p.1 == k') with
      | true => simp
      | false => simpa [lookupA] using ih

theorem lookupA_isSome_of_mem (l : ChatThreads) (pr : String × Thread)
    (h : pr ∈ l) : (lookupA l pr.1).isSome := by
  have hs : (List.find? (fun p => p.1 == pr.1) l).isSome :=
    List.find?_isSome.mpr ⟨pr, h, by simp⟩
  obtain ⟨q, hq⟩ := Option.isSome_iff_exists.mp hs
  simp [lookupA, hq]

/-- The fields of the state after `_addMessageToThread` on an existing
thread. -/
theorem addMessage_fields (tid : String) (msg : ChatMessage) (now : Nat)
    (st : SvcState) (th : Thread) (h : lookupA st.allThreads tid = some th) :
    (_addMessageToThread tid msg now st).allThreads =
      updateA st.allThreads th.id
        { th with lastModified := now, messages := th.messages ++ [msg] } ∧
    (_addMessageToThread tid msg now st).storedThreads =
      updateA st.allThreads th.id
        { th with lastModified := now, messages := th.messages ++ [msg] } ∧
    (_addMessageToThread tid msg now st).currentThreadId = st.currentThreadId ∧
    (_addMessageToThread tid msg now st).streamState = st.streamState ∧
    (_addMessageToThread tid msg now st).threadChangeEvents =
      st.threadChangeEvents + 1 ∧
    (_addMessageToThread tid msg now st).streamEvents = st.streamEvents ∧
    (_addMessageToThread tid msg now st).aborts = st.aborts ∧
    (_addMessageToThread tid msg now st).invoked = st.invoked := by
  simp [_addMessageToThread, h, fireThreadChange, _storeAllThreads]

/-- C3 (amended): for every stored thread map and every version tag other
than "v1" — in particular an absent tag, an unrecognized tag, and the
current tag "v2" — `_updatedThreadsToVersion` returns `null` ("no update"),
and the constructor (`updatedThreads ?? readThreads`) proceeds with the
loaded threads unchanged; the persisted threads are NOT discarded. -/
theorem C3_amended_migration (threads : ChatThreads) (v : Option String)
    (h : v ≠ some "v1") :
    _updatedThreadsToVersion threads v = none ∧
      loadedThreads threads v = threads := by
  have hmain : _updatedThreadsToVersion threads v = none := by
    rw [_updatedThreadsToVersion]
    cases v with
    | none => simp [jsFalsy]
    | some s =>
      by_cases hs : s = ""
      · simp [jsFalsy, hs]
      · have hs1 : s ≠ "v1" := fun hc => h (by rw [hc])
        have hs2 : (some s == some "v1") = false := by simp [hs1]
        simp [jsFalsy, hs, hs2]
  exact ⟨hmain, by rw [loadedThreads, hmain]; rfl⟩

/-- Witness for C3's amended theorem at the absent version tag. -/
theorem C3_amended_witness :
    ((none : Option String) ≠ some "v1") ∧
    (_updatedThreadsToVersion
        [("a", { id := "a", createdAt := 0, lastModified := 0, messages := [],
                 state := none })] none = none ∧
      loadedThreads
        [("a", { id := "a", createdAt := 0, lastModified := 0, messages := [],
                 state := none })] none =
        [("a", { id := "a", createdAt := 0, lastModified := 0, messages := [],
                 state := none })]) :=
  ⟨by decide, C3_amended_migration _ none (by decide)⟩

/-- C3 counterexample: the claim predicts that with an absent version tag
the thread collection is reset to the empty map; on the code, loading the
one-thread map with no version tag keeps it unchanged (non-empty). -/
theorem C3_counterexample :
    ¬ (loadedThreads
        [("a", { id := "a", createdAt := 0, lastModified := 0, messages := [],
                 state := none })] none = []) := by
  decide

/-- C5: appending a message to an existing thread (whose stored `id` field
matches its key, as the service maintains) with a clock reading at or after
the thread's `lastModified` yields a thread whose message list is the old
list with the message appended at the end (so all earlier messages are
structurally unchanged), whose last message is the appended message, and
whose `lastModified` did not decrease; the updated thread map is persisted
(`storedThreads` equals the new `allThreads`) before the operation returns,
and the current-thread-changed notification fires exactly once. -/
theorem C5_addMessageToThread_spec (tid : String) (msg : ChatMessage)
    (now : Nat) (st : SvcState) (th : Thread)
    (hth : lookupA st.allThreads tid = some th) (hid : th.id = tid)
    (hclock : th.lastModified ≤ now) :
    ∃ th2, lookupA (_addMessageToThread tid msg now st).allThreads tid = some th2 ∧
      th2.messages = th.messages ++ [msg] ∧
      th2.messages.getLast? = some msg ∧
      th.lastModified ≤ th2.lastModified ∧
      (_addMessageToThread tid msg now st).storedThreads =
        (_addMessageToThread tid msg now st).allThreads ∧
      (_addMessageToThread tid msg now st).threadChangeEvents =
        st.threadChangeEvents + 1 := by
  obtain ⟨ha, hs, _, _, he, _, _, _⟩ := addMessage_fields tid msg now st th hth
  refine ⟨{ th with lastModified := now, messages := th.messages ++ [msg] },
    ?_, rfl, ?_, hclock, by rw [ha, hs], he⟩
  · rw [ha, ← hid]
    exact lookupA_updateA_self _ _ _
  · exact List.getLast?_concat _

/-- Concrete thread for the C5 witness. -/
def wTh5 : Thread :=
  { id := "t", createdAt := 0, lastModified := 3, messages := [], state := none }

/-- Concrete state for the C5 witness. -/
def wSt5 : SvcState :=
  { allThreads := [("t", wTh5)], currentThreadId := "t",
    streamState := fun _ => none, storedThreads := [], threadChangeEvents := 0,
    streamEvents := [], aborts := [], invoked := [] }

/-- Witness for C5 at a concrete state. -/
theorem C5_witness :
    ∃ th2, lookupA (_addMessageToThread "t" (.system "s") 7 wSt5).allThreads "t" =
        some th2 ∧
      th2.messages = wTh5.messages ++ [.system "s"] ∧
      th2.messages.getLast? = some (.system "s") ∧
      wTh5.lastModified ≤ th2.lastModified ∧
      (_addMessageToThread "t" (.system "s") 7 wSt5).storedThreads =
        (_addMessageToThread "t" (.system "s") 7 wSt5).allThreads ∧
      (_addMessageToThread "t" (.system "s") 7 wSt5).threadChangeEvents =
        wSt5.threadChangeEvents + 1 :=
  C5_addMessageToThread_spec "t" (.system "s") 7 wSt5 wTh5 (by decide) (by decide)
    (by decide)

/-- C6: `openNewThread` switches to an existing thread with zero messages
when one exists (creating nothing new and leaving the thread map and the
persisted copy untouched); otherwise it creates a thread whose id is derived
from the current time, persists the updated map, and switches to it.  In
either case the resulting `currentThreadId` names a thread present in
`allThreads`. -/
theorem C6_openNewThread_spec (now : Nat) (st : SvcState) :
    (match st.allThreads.find? (fun p => p.2.messages.length == 0) with
     | some p =>
        (openNewThread now st).allThreads = st.allThreads ∧
        (openNewThread now st).storedThreads = st.storedThreads ∧
        (openNewThread now st).currentThreadId = p.1
     | none =>
        (openNewThread now st).allThreads =
          updateA st.allThreads (toString now) (newThreadObject now) ∧
        (openNewThread now st).storedThreads = (openNewThread now st).allThreads ∧
        (openNewThread now st).currentThreadId = toString now) ∧
    (lookupA (openNewThread now st).allThreads
      (openNewThread now st).currentThreadId).isSome := by
  cases hf : st.allThreads.find? (fun p => p.2.messages.length == 0) with
  | some p =>
    have hmem : p ∈ st.allThreads := List.mem_of_find?_eq_some hf
    have hlook := lookupA_isSome_of_mem _ _ hmem
    constructor
    · refine ⟨?_, ?_, ?_⟩ <;>
        simp [openNewThread, hf, switchToThread, fireThreadChange]
    · simpa [openNewThread, hf, switchToThread, fireThreadChange] using hlook
  | none =>
    constructor
    · refine ⟨?_, ?_, ?_⟩ <;>
        simp [openNewThread, hf, fireThreadChange, _storeAllThreads, newThreadObject]
    · simp [openNewThread, hf, fireThreadChange, _storeAllThreads,
        lookupA_updateA_self]

/-- C10: `dismissStreamError(threadId)` clears exactly the `error` field of
that thread's stream state, leaves `messageSoFar` and `streamingToken` of
that entry and the stream state of every other thread unchanged, leaves the
entire thread state (thread map, current thread, persisted copy) and the
other effect traces unchanged, and fires exactly one stream-state-changed
event carrying that `threadId`. -/
theorem C10_dismissStreamError_frame (st : SvcState) (tid : String) :
    (dismissStreamError tid st).streamState tid =
      some ⟨none, ((st.streamState tid).getD {}).messageSoFar,
        ((st.streamState tid).getD {}).streamingToken⟩ ∧
    (∀ other, other ≠ tid →
      (dismissStreamError tid st).streamState other = st.streamState other) ∧
    (dismissStreamError tid st).allThreads = st.allThreads ∧
    (dismissStreamError tid st).currentThreadId = st.currentThreadId ∧
    (dismissStreamError tid st).storedThreads = st.storedThreads ∧
    (dismissStreamError tid st).threadChangeEvents = st.threadChangeEvents ∧
    (dismissStreamError tid st).aborts = st.aborts ∧
    (dismissStreamError tid st).invoked = st.invoked ∧
    (dismissStreamError tid st).streamEvents = st.streamEvents ++ [tid] := by
  refine ⟨?_, fun other hne => ?_, rfl, rfl, rfl, rfl, rfl, rfl, rfl⟩
  · simp [dismissStreamError, _setStreamState, applyStreamPatch]
  · simp [dismissStreamError, _setStreamState, hne]

/-- Concrete state for the C10 witness. -/
def wSt10 : SvcState :=
  { allThreads := [], currentThreadId := "t",
    streamState := fun s =>
      if s = "t" then some ⟨some "boom", some "m", some "k"⟩ else none,
    storedThreads := [], threadChangeEvents := 0, streamEvents := [],
    aborts := [], invoked := [] }

/-- Witness for C10 at a concrete state (its frame clause has the
hypothesis `other ≠ tid`, discharged at `other = "u"`). -/
theorem C10_witness :
    (dismissStreamError "t" wSt10).streamState "t" =
      some { error := none, messageSoFar := some "m", streamingToken := some "k" } ∧
    (dismissStreamError "t" wSt10).streamState "u" = wSt10.streamState "u" ∧
    (dismissStreamError "t" wSt10).streamEvents = wSt10.streamEvents ++ ["t"] := by
  have h := C10_dismissStreamError_frame wSt10 "t"
  refine ⟨?_, h.2.1 "u" (by decide), h.2.2.2.2.2.2.2.2⟩
  have h1 := h.1
  simpa [wSt10] using h1

/-- C8: the synchronous head of `editUserMessageAndStreamResponse` throws
(second component `some errorMessage`) exactly when the message at
`messageIdx` of the current thread does not have role `user` (including an
out-of-range index), and in that case the service state is returned
unchanged — the role check precedes every mutation, so the operation is
atomic.  When the message is a `user` message, no error is raised and the
thread's message list is truncated to `[0, messageIdx)` (with the
current-thread-changed event fired and, as in the source, no persistence)
before the send loop is re-entered. -/
theorem C8_editUserMessage_spec (st : SvcState) (th : Thread) (messageIdx : Nat)
    (hth : lookupA st.allThreads st.currentThreadId = some th) :
    ((editUserMessageAndStreamResponse_truncation messageIdx st).2.isSome ↔
      isUserAt th.messages messageIdx = false) ∧
    ((editUserMessageAndStreamResponse_truncation messageIdx st).2.isSome →
      (editUserMessageAndStreamResponse_truncation messageIdx st).1 = st) ∧
    (isUserAt th.messages messageIdx = true →
      (editUserMessageAndStreamResponse_truncation messageIdx st).2 = none ∧
      (∃ th2, lookupA (editUserMessageAndStreamResponse_truncation messageIdx
          st).1.allThreads th.id = some th2 ∧
        th2.messages = th.messages.take messageIdx) ∧
      (editUserMessageAndStreamResponse_truncation messageIdx st).1.threadChangeEvents =
        st.threadChangeEvents + 1 ∧
      (editUserMessageAndStreamResponse_truncation messageIdx st).1.storedThreads =
        st.storedThreads) := by
  cases hu : isUserAt th.messages messageIdx with
  | false =>
    refine ⟨?_, ?_, by simp⟩ <;>
      simp [editUserMessageAndStreamResponse_truncation, hth, hu]
  | true =>
    refine ⟨?_, ?_, fun _ => ⟨?_, ?_, ?_, ?_⟩⟩ <;>
      simp [editUserMessageAndStreamResponse_truncation, hth, hu,
        fireThreadChange, lookupA_updateA_self]

/-- Concrete states for the C8 witness: a thread whose message 0 is a user
message and whose message 1 is not. -/
def wTh8 : Thread :=
  { id := "t", createdAt := 0, lastModified := 0,
    messages := [.user (some "hi") (some "hi") (some []) (some defaultMessageState),
      .assistant (some "yo") (some "yo")],
    state := some defaultThreadState }

def wSt8 : SvcState :=
  { allThreads := [("t", wTh8)], currentThreadId := "t",
    streamState := fun _ => none, storedThreads := [("t", wTh8)],
    threadChangeEvents := 0, streamEvents := [], aborts := [], invoked := [] }

/-- Witness for C8 at a concrete state and index 1 (whose message is not a
user message, so the inner implications are exercised on the throwing side
as well as the truncating side via index 0). -/
theorem C8_witness :
    (((editUserMessageAndStreamResponse_truncation 1 wSt8).2.isSome ↔
        isUserAt wTh8.messages 1 = false) ∧
      ((editUserMessageAndStreamResponse_truncation 1 wSt8).2.isSome →
        (editUserMessageAndStreamResponse_truncation 1 wSt8).1 = wSt8)) ∧
    (isUserAt wTh8.messages 0 = true →
      (editUserMessageAndStreamResponse_truncation 0 wSt8).2 = none ∧
      (∃ th2, lookupA (editUserMessageAndStreamResponse_truncation 0
          wSt8).1.allThreads wTh8.id = some th2 ∧
        th2.messages = wTh8.messages.take 0) ∧
      (editUserMessageAndStreamResponse_truncation 0 wSt8).1.threadChangeEvents =
        wSt8.threadChangeEvents + 1 ∧
      (editUserMessageAndStreamResponse_truncation 0 wSt8).1.storedThreads =
        wSt8.storedThreads) :=
  ⟨⟨(C8_editUserMessage_spec wSt8 wTh8 1 (by decide)).1,
    (C8_editUserMessage_spec wSt8 wTh8 1 (by decide)).2.1⟩,
   (C8_editUserMessage_spec wSt8 wTh8 0 (by decide)).2.2⟩

/-- The assistant message `_finishStreamingTextMessage` appends for a given
accumulated text (`displayContent: content || null`). -/
def assistantFinishMsg (content : String) : ChatMessage :=
  .assistant (some content) (if content = "" then none else some content)

/-- What one `cancelStreaming` call does on an existing thread: abort trace
extended by the stored token (if any), one assistant message carrying the
accumulated `messageSoFar` (defaulting to the empty string) appended with
`lastModified` bumped, and the stream-state entry left with all three
fields cleared (the patch passes all three keys, `error` as `undefined`). -/
theorem cancelStreaming_spec (st : SvcState) (tid : String) (th : Thread)
    (now : Nat) (hth : lookupA st.allThreads tid = some th) (hid : th.id = tid) :
    (cancelStreaming tid now st).aborts =
      st.aborts ++ ((st.streamState tid).bind (fun q => q.streamingToken)).toList ∧
    lookupA (cancelStreaming tid now st).allThreads tid =
      some { th with
        lastModified := now,
        messages := th.messages ++ [assistantFinishMsg
          (((st.streamState tid).bind (fun q => q.messageSoFar)).getD "")] } ∧
    (cancelStreaming tid now st).streamState tid = some ⟨none, none, none⟩ := by
  subst hid
  simp only [cancelStreaming]
  cases htok : (st.streamState th.id).bind (fun q => q.streamingToken) with
  | none =>
    refine ⟨?_, ?_, ?_⟩ <;>
      simp [_finishStreamingTextMessage, _setStreamState, _addMessageToThread,
        hth, fireThreadChange, _storeAllThreads, applyStreamPatch,
        assistantFinishMsg, lookupA_updateA_self]
  | some t =>
    refine ⟨?_, ?_, ?_⟩ <;>
      simp [_finishStreamingTextMessage, _setStreamState, _addMessageToThread,
        hth, fireThreadChange, _storeAllThreads, applyStreamPatch,
        assistantFinishMsg, lookupA_updateA_self]

/-- C2 (amended): cancelling while a response is streaming aborts the
transport via the stored streaming token if one exists, appends exactly one
new assistant message whose content is the accumulated `messageSoFar`
(possibly empty), and clears `messageSoFar` and `streamingToken` (and the
error field, which the finalizer also overwrites).  A second
`cancelStreaming` on the same thread is NOT a no-op: the streaming token is
gone so nothing is aborted, but `_finishStreamingTextMessage` runs
unconditionally and appends a second assistant message with empty content. -/
theorem C2_amended_cancelStreaming (st : SvcState) (tid : String) (th : Thread)
    (now now2 : Nat) (hth : lookupA st.allThreads tid = some th)
    (hid : th.id = tid) :
    (cancelStreaming tid now st).aborts =
      st.aborts ++ ((st.streamState tid).bind (fun q => q.streamingToken)).toList ∧
    (∃ th1, lookupA (cancelStreaming tid now st).allThreads tid = some th1 ∧
      th1.messages = th.messages ++
        [assistantFinishMsg (((st.streamState tid).bind
          (fun q => q.messageSoFar)).getD "")]) ∧
    (cancelStreaming tid now st).streamState tid = some ⟨none, none, none⟩ ∧
    (cancelStreaming tid now2 (cancelStreaming tid now st)).aborts =
      (cancelStreaming tid now st).aborts ∧
    (∃ th2, lookupA (cancelStreaming tid now2
        (cancelStreaming tid now st)).allThreads tid = some th2 ∧
      th2.messages = (th.messages ++
        [assistantFinishMsg (((st.streamState tid).bind
          (fun q => q.messageSoFar)).getD "")]) ++ [assistantFinishMsg ""]) := by
  obtain ⟨a1, l1, s1⟩ := cancelStreaming_spec st tid th now hth hid
  obtain ⟨a2, l2, _⟩ := cancelStreaming_spec (cancelStreaming tid now st) tid
    _ now2 l1 (by simpa using hid)
  refine ⟨a1, ⟨_, l1, rfl⟩, s1, ?_, ⟨_, l2, ?_⟩⟩
  · rw [a2, s1]
    simp
  · rw [s1]
    simp

/-- Concrete state for C2: one thread "t", a stream in flight with
accumulated text "hi" and a live token. -/
def wTh2 : Thread :=
  { id := "t", createdAt := 0, lastModified := 0, messages := [],
    state := some defaultThreadState }

def wSt2 : SvcState :=
  { allThreads := [("t", wTh2)], currentThreadId := "t",
    streamState := fun s =>
      if s = "t" then some ⟨none, some "hi", some "tok"⟩ else none,
    storedThreads := [("t", wTh2)], threadChangeEvents := 0, streamEvents := [],
    aborts := [], invoked := [] }

/-- C2 counterexample: the claim says a second `cancelStreaming` on the same
thread is a no-op that does not append a second message; on the code the
first cancel leaves one assistant message and the second cancel appends
another, so the thread has two messages. -/
theorem C2_counterexample :
    (lookupA (cancelStreaming "t" 1 wSt2).allThreads "t").map
      (fun t => t.messages.length) = some 1 ∧
    (lookupA (cancelStreaming "t" 2 (cancelStreaming "t" 1 wSt2)).allThreads
      "t").map (fun t => t.messages.length) = some 2 ∧
    (cancelStreaming "t" 2 (cancelStreaming "t" 1 wSt2)).allThreads ≠
      (cancelStreaming "t" 1 wSt2).allThreads := by
  refine ⟨by decide, by decide, by decide⟩

/-- Witness for C2's amended theorem at the concrete in-flight state. -/
theorem C2_amended_witness :
    (cancelStreaming "t" 1 wSt2).aborts =
      wSt2.aborts ++ ((wSt2.streamState "t").bind (fun q => q.streamingToken)).toList ∧
    (∃ th1, lookupA (cancelStreaming "t" 1 wSt2).allThreads "t" = some th1 ∧
      th1.messages = wTh2.messages ++
        [assistantFinishMsg (((wSt2.streamState "t").bind
          (fun q => q.messageSoFar)).getD "")]) ∧
    (cancelStreaming "t" 1 wSt2).streamState "t" = some ⟨none, none, none⟩ ∧
    (cancelStreaming "t" 2 (cancelStreaming "t" 1 wSt2)).aborts =
      (cancelStreaming "t" 1 wSt2).aborts ∧
    (∃ th2, lookupA (cancelStreaming "t" 2
        (cancelStreaming "t" 1 wSt2)).allThreads "t" = some th2 ∧
      th2.messages = (wTh2.messages ++
        [assistantFinishMsg (((wSt2.streamState "t").bind
          (fun q => q.messageSoFar)).getD "")]) ++ [assistantFinishMsg ""]) :=
  C2_amended_cancelStreaming wSt2 "t" wTh2 1 2 (by decide) (by decide)

/-- Behaviour of the tool loop when a prefix of calls succeeds and the next
call fails (at either stage): the loop invokes exactly the successful prefix
plus the failing call (in list order), records the failing call's error in
the thread's stream state, resets `shouldSendAnotherMessage` to `false`, and
leaves the tool messages of the successful prefix appended to the thread. -/
theorem runTools_err_spec (env : ToolEnv) (tid : String) (now : Nat)
    (post : List ToolCall) (bad : ToolCall) (hbad : toolOk env bad = false) :
    ∀ (pre : List ToolCall) (b : Bool) (st : SvcState) (th : Thread),
      (∀ tc ∈ pre, toolOk env tc = true) →
      lookupA st.allThreads tid = some th → th.id = tid →
      (runTools env tid now (pre ++ bad :: post) b st).2 = false ∧
      (runTools env tid now (pre ++ bad :: post) b st).1.invoked =
        st.invoked ++ (pre ++ [bad]).map (fun tc => (tc.name, tc.params)) ∧
      ((runTools env tid now (pre ++ bad :: post) b st).1.streamState tid).map
        (fun q => q.error) = some (toolErr env bad) ∧
      (∃ th2, lookupA (runTools env tid now
          (pre ++ bad :: post) b st).1.allThreads tid = some th2 ∧ th2.id = tid ∧
        th2.messages = th.messages ++ pre.map (toolMsgOf env)) := by
  intro pre
  induction pre with
  | nil =>
    intro b st th _ hth hid
    cases hfn : env.toolFns bad.name bad.params with
    | error e =>
      refine ⟨?_, ?_, ?_, ⟨th, ?_, hid, by simp⟩⟩ <;>
        simp [runTools, hfn, _setStreamState, applyStreamPatch, toolErr, hth]
    | ok v =>
      cases hts : env.toolResultToString bad.name v with
      | error e =>
        refine ⟨?_, ?_, ?_, ⟨th, ?_, hid, by simp⟩⟩ <;>
          simp [runTools, hfn, hts, _setStreamState, applyStreamPatch, toolErr, hth]
      | ok s => rw [toolOk, hfn] at hbad; simp [hts] at hbad
  | cons tc pre ih =>
    intro b st th hpre hth hid
    have htc : toolOk env tc = true := hpre tc (List.mem_cons_self _ _)
    cases hfn : env.toolFns tc.name tc.params with
    | error e => rw [toolOk, hfn] at htc; simp at htc
    | ok v =>
      cases hts : env.toolResultToString tc.name v with
      | error e => rw [toolOk, hfn] at htc; simp [hts] at htc
      | ok s =>
        have hmsg : toolMsgOf env tc = .tool tc.name tc.params tc.id s v := by
          simp [toolMsgOf, hfn, hts]
        have hstep : runTools env tid now ((tc :: pre) ++ bad :: post) b st =
            runTools env tid now (pre ++ bad :: post) true
              (_addMessageToThread tid (.tool tc.name tc.params tc.id s v) now
                { st with invoked := st.invoked ++ [(tc.name, tc.params)] }) := by
          rw [List.cons_append, runTools]
          simp only [hfn, hts]
        set st0 : SvcState :=
          { st with invoked := st.invoked ++ [(tc.name, tc.params)] } with hst0
        have hth0 : lookupA st0.allThreads tid = some th := hth
        obtain ⟨ha, hs, _, _, _, _, _, hinv⟩ :=
          addMessage_fields tid (.tool tc.name tc.params tc.id s v) now st0 th hth0
        have hlook2 : lookupA (_addMessageToThread tid
            (.tool tc.name tc.params tc.id s v) now st0).allThreads tid =
            some { th with
              lastModified := now,
              messages := th.messages ++ [.tool tc.name tc.params tc.id s v] } := by
          rw [ha, ← hid]
          exact lookupA_updateA_self _ _ _
        obtain ⟨r1, r2, r3, th2, r4, r5, r6⟩ := ih true
          (_addMessageToThread tid (.tool tc.name tc.params tc.id s v) now st0)
          { th with
            lastModified := now,
            messages := th.messages ++ [.tool tc.name tc.params tc.id s v] }
          (fun u hu => hpre u (List.mem_cons_of_mem _ hu)) hlook2 hid
        rw [hstep]
        refine ⟨r1, ?_, r3, ⟨th2, r4, r5, ?_⟩⟩
        · rw [r2, hinv]
          simp [hst0]
        · rw [r6]
          simp [hmsg]

/-- C4: when a final model result carries tool calls, the orchestrator
executes them strictly sequentially in the order received (the invocation
trace is the successful prefix followed by the failing call); if a tool
invocation throws, or the conversion of its typed result to a display
string throws, that call's error is recorded into the thread's stream
state, no further tool call of the turn is invoked, no further model
request is issued for the turn (`shouldSendAnotherMessage` ends `false`),
and the tool messages of the earlier successful calls (after the assistant
message) remain in the thread history. -/
theorem C4_toolLoop_error_spec (env : ToolEnv) (tid : String) (now : Nat)
    (fullText : String) (st : SvcState) (th : Thread)
    (pre post : List ToolCall) (bad : ToolCall)
    (hth : lookupA st.allThreads tid = some th) (hid : th.id = tid)
    (hpre : ∀ tc ∈ pre, toolOk env tc = true) (hbad : toolOk env bad = false) :
    (onFinalMessage env tid now fullText (pre ++ bad :: post) st).2 = false ∧
    (toolErr env bad).isSome ∧
    ((onFinalMessage env tid now fullText (pre ++ bad :: post) st).1.streamState
      tid).map (fun q => q.error) = some (toolErr env bad) ∧
    (onFinalMessage env tid now fullText (pre ++ bad :: post) st).1.invoked =
      st.invoked ++ (pre ++ [bad]).map (fun tc => (tc.name, tc.params)) ∧
    (∃ th2, lookupA (onFinalMessage env tid now fullText
        (pre ++ bad :: post) st).1.allThreads tid = some th2 ∧
      th2.messages = th.messages ++
        .assistant (some fullText) (some fullText) :: pre.map (toolMsgOf env)) := by
  have hne : (pre ++ bad :: post).length ≠ 0 := by simp
  have herr : (toolErr env bad).isSome := by
    rw [toolErr]
    cases hfn : env.toolFns bad.name bad.params with
    | error e => rfl
    | ok v =>
      cases hts : env.toolResultToString bad.name v with
      | error e => simp [hts]
      | ok s => rw [toolOk, hfn] at hbad; simp [hts] at hbad
  have hof : onFinalMessage env tid now fullText (pre ++ bad :: post) st =
      runTools env tid now (pre ++ bad :: post) false
        (_setStreamState tid { messageSoFar := some none }
          (_addMessageToThread tid
            (.assistant (some fullText) (some fullText)) now st)) := by
    rw [onFinalMessage, if_neg hne]
  obtain ⟨ha, _, _, _, _, _, _, hinv⟩ :=
    addMessage_fields tid (.assistant (some fullText) (some fullText)) now st th hth
  have hlookA : lookupA (_setStreamState tid { messageSoFar := some none }
      (_addMessageToThread tid (.assistant (some fullText) (some fullText))
        now st)).allThreads tid =
      some { th with
        lastModified := now,
        messages := th.messages ++ [.assistant (some fullText) (some fullText)] } := by
    show lookupA (_addMessageToThread tid
      (.assistant (some fullText) (some fullText)) now st).allThreads tid = _
    rw [ha, ← hid]
    exact lookupA_updateA_self _ _ _
  obtain ⟨r1, r2, r3, th2, r4, r5, r6⟩ := runTools_err_spec env tid now post bad
    hbad pre false
    (_setStreamState tid { messageSoFar := some none }
      (_addMessageToThread tid (.assistant (some fullText) (some fullText)) now st))
    { th with
      lastModified := now,
      messages := th.messages ++ [.assistant (some fullText) (some fullText)] }
    hpre hlookA hid
  rw [hof]
  refine ⟨r1, herr, r3, ?_, ⟨th2, r4, ?_⟩⟩
  · rw [r2]
    show (_addMessageToThread tid (.assistant (some fullText) (some fullText))
      now st).invoked ++ _ = _
    rw [hinv]
  · rw [r6]
    simp

/-- Concrete tool environment for the C4 witness: tool "good" succeeds at
both stages, every other tool name throws at invocation. -/
def wEnv4 : ToolEnv :=
  { toolFns := fun n p => if n = "good" then .ok (String.append "v:" p)
      else .error "boom",
    toolResultToString := fun _ v => .ok (String.append "S:" v) }

def wTh4 : Thread :=
  { id := "t", createdAt := 0, lastModified := 0, messages := [],
    state := some defaultThreadState }

def wSt4 : SvcState :=
  { allThreads := [("t", wTh4)], currentThreadId := "t",
    streamState := fun _ => none, storedThreads := [("t", wTh4)],
    threadChangeEvents := 0, streamEvents := [], aborts := [], invoked := [] }

/-- Witness for C4: one successful call, then a failing one, with a third
call that must never run. -/
theorem C4_witness :
    (onFinalMessage wEnv4 "t" 9 "txt"
      ([⟨"good", "p1", "i1"⟩] ++ ⟨"bad", "p2", "i2"⟩ :: [⟨"good", "p3", "i3"⟩])
      wSt4).2 = false ∧
    (toolErr wEnv4 ⟨"bad", "p2", "i2"⟩).isSome ∧
    ((onFinalMessage wEnv4 "t" 9 "txt"
      ([⟨"good", "p1", "i1"⟩] ++ ⟨"bad", "p2", "i2"⟩ :: [⟨"good", "p3", "i3"⟩])
      wSt4).1.streamState "t").map (fun q => q.error) =
      some (toolErr wEnv4 ⟨"bad", "p2", "i2"⟩) ∧
    (onFinalMessage wEnv4 "t" 9 "txt"
      ([⟨"good", "p1", "i1"⟩] ++ ⟨"bad", "p2", "i2"⟩ :: [⟨"good", "p3", "i3"⟩])
      wSt4).1.invoked =
      wSt4.invoked ++ ([(⟨"good", "p1", "i1"⟩ : ToolCall)] ++
        [(⟨"bad", "p2", "i2"⟩ : ToolCall)]).map (fun tc => (tc.name, tc.params)) ∧
    (∃ th2, lookupA (onFinalMessage wEnv4 "t" 9 "txt"
        ([⟨"good", "p1", "i1"⟩] ++ ⟨"bad", "p2", "i2"⟩ :: [⟨"good", "p3", "i3"⟩])
        wSt4).1.allThreads "t" = some th2 ∧
      th2.messages = wTh4.messages ++
        .assistant (some "txt") (some "txt") ::
          ([(⟨"good", "p1", "i1"⟩ : ToolCall)]).map (toolMsgOf wEnv4)) :=
  C4_toolLoop_error_spec wEnv4 "t" 9 "txt" wSt4 wTh4
    [⟨"good", "p1", "i1"⟩] [⟨"good", "p3", "i3"⟩] ⟨"bad", "p2", "i2"⟩
    (by decide) (by decide) (by decide) (by decide)

end VoidEditor
